import Mathlib

/-!
Verification of the IMF demuxer (libavformat/imfdec.c) against its
natural-language specification.

Shallow embedding conventions:
* `AVRational` values (always with positive denominator in this demuxer) are
  modelled as exact rationals `ℚ`; `av_cmp_q` is the order on `ℚ`, `av_add_q`
  is `+`, `av_inv_q` is `⁻¹`, and `av_make_q a b` is `a / b`.
* C strings are `List Char`, NUL-terminated: reading past the end of the list
  yields the NUL character (`Char.ofNat 0`), exactly as indexing a C string
  past its last character yields the terminator.
* A child demuxer context (`AVFormatContext *ctx` of a resource playback
  handle) is modelled by an `isOpen` flag together with the time base of its
  first stream; `avformat_open_input`/`avformat_find_stream_info` are assumed
  to succeed (I/O is outside the model), and `avformat_close_input` clears the
  flag.
* `av_read_frame` results are fed in as an explicit list of `ChildRead`
  values; an exhausted list behaves like a child that reports end of stream.
  `ff_check_interrupt` probes are fed in as a list of booleans (`headD false`
  when exhausted).
-/

namespace ImfDec

/-- FFIMFBaseResource (imf.h): edit rate plus edit-unit counts.  The
`AVRational edit_rate` is modelled as an exact rational. -/
structure FFIMFBaseResource where
  edit_rate : ℚ
  entry_point : ℕ
  duration : ℕ
  repeat_count : ℕ
  deriving DecidableEq, Repr

/-- FFIMFTrackFileResource (imf.h): a base resource plus the UUID of the
track file it references (16 bytes, modelled as a list of naturals). -/
structure FFIMFTrackFileResource where
  base : FFIMFBaseResource
  track_file_uuid : List ℕ
  deriving DecidableEq, Repr

/-- IMFVirtualTrackResourcePlaybackCtx (imfdec.c): one playback handle for a
resource.  The lazily managed child `AVFormatContext` is modelled by the
`isOpen` flag; `time_base` is the time base of the child's first stream
(`ctx->streams[0]->time_base`), fixed by the underlying file. -/
structure IMFVirtualTrackResourcePlaybackCtx where
  resource : FFIMFTrackFileResource
  isOpen : Bool
  time_base : ℚ
  deriving DecidableEq, Repr

/-- Placeholder handle returned by out-of-range list reads; never produced by
the engine itself. -/
def default_handle : IMFVirtualTrackResourcePlaybackCtx :=
  { resource := { base := { edit_rate := 0, entry_point := 0, duration := 0, repeat_count := 0 },
                  track_file_uuid := [] },
    isOpen := false,
    time_base := 0 }

/-- IMFVirtualTrackPlaybackCtx (imfdec.c): the per-track playback state. -/
structure IMFVirtualTrackPlaybackCtx where
  index : ℤ
  current_timestamp : ℚ
  duration : ℚ
  resources : List IMFVirtualTrackResourcePlaybackCtx
  current_resource_index : ℕ
  last_pts : ℤ
  deriving DecidableEq, Repr

/-- One result of `av_read_frame` on the child demuxer: a packet (its pts,
dts and duration fields), end of stream, or another error code. -/
inductive ChildRead where
  | pkt (pts dts duration : ℤ)
  | eof
  | err (code : ℤ)
  deriving DecidableEq, Repr

/-- A packet as emitted by `imf_read_packet` after timestamp rewriting. -/
structure EmittedPacket where
  pts : ℤ
  dts : ℤ
  duration : ℤ
  stream_index : ℤ
  deriving DecidableEq, Repr

/-- Outcome of one `imf_read_packet` call. -/
inductive ReadResult where
  | packet (p : EmittedPacket)
  | eof
  | streamNotFound
  | err (code : ℤ)
  deriving DecidableEq, Repr

/-- The initial value `av_make_q(INT32_MAX, 1)` of `minimum_timestamp` in
`get_next_track_with_minimum_timestamp`. -/
def INT32_MAX_Q : ℚ := 2147483647

/-- The loop of `get_next_track_with_minimum_timestamp` (imfdec.c:649-680).
`best` is the `track` pointer, modelled as the index of the chosen track and
starting out as `none` because the C code leaves the pointer uninitialized. -/
def next_track_loop :
    List IMFVirtualTrackPlaybackCtx → ℕ → Option ℕ → ℚ → Option ℕ × ℚ
  | [], _, best, minTs => (best, minTs)
  | t :: rest, i, best, minTs =>
    if t.current_timestamp < minTs then
      next_track_loop rest (i + 1) (some i) t.current_timestamp
    else
      next_track_loop rest (i + 1) best minTs

/-- get_next_track_with_minimum_timestamp (imfdec.c:649-680): index of the
track with the least `current_timestamp`; `none` models the uninitialized
`track` pointer when no track beats `av_make_q(INT32_MAX, 1)`. -/
def get_next_track_with_minimum_timestamp
    (tracks : List IMFVirtualTrackPlaybackCtx) : Option ℕ :=
  (next_track_loop tracks 0 none INT32_MAX_Q).1

/-- Cumulated duration of the first `n` resources of a track, each counted as
`source_duration × eu` (the running `cumulated_duration` of
`get_resource_context_for_timestamp`). -/
def cumulated_durations (eu : ℚ) (rs : List IMFVirtualTrackResourcePlaybackCtx)
    (n : ℕ) : ℚ :=
  ((rs.take n).map (fun h => (h.resource.base.duration : ℚ) * eu)).sum

/-- The resource-walking loop of `get_resource_context_for_timestamp`
(imfdec.c:694-728): first index `i` with
`current_timestamp + eu ≤ cumulated_duration` after adding resource `i`. -/
def find_covering_resource (ct eu : ℚ) :
    List IMFVirtualTrackResourcePlaybackCtx → ℚ → ℕ → Option ℕ
  | [], _, _ => none
  | h :: rest, cum, i =>
    let cum1 := cum + (h.resource.base.duration : ℚ) * eu
    if ct + eu ≤ cum1 then some i else find_covering_resource ct eu rest cum1 (i + 1)

/-- Set the open flag of the handle at index `j` (models
`avformat_close_input` on that handle's context for `b = false`, and
`open_track_resource_context` for `b = true`). -/
def set_open_flag :
    List IMFVirtualTrackResourcePlaybackCtx → ℕ → Bool →
      List IMFVirtualTrackResourcePlaybackCtx
  | [], _, _ => []
  | h :: rest, 0, b => { h with isOpen := b } :: rest
  | h :: rest, j + 1, b => h :: set_open_flag rest j b

/-- get_resource_context_for_timestamp (imfdec.c:682-730).  Returns the index
of the covering resource together with the updated track: when the covering
index differs from `current_resource_index` the current resource's child is
closed, the new one opened, and the cursor index updated.  `none` models the
NULL return when no resource covers the timestamp (child opens are assumed to
succeed; an empty resource list would be undefined behaviour in C). -/
def get_resource_context_for_timestamp (track : IMFVirtualTrackPlaybackCtx) :
    Option (ℕ × IMFVirtualTrackPlaybackCtx) :=
  match track.resources.head? with
  | none => none
  | some r0 =>
    match find_covering_resource track.current_timestamp
        (r0.resource.base.edit_rate)⁻¹ track.resources 0 0 with
    | none => none
    | some i =>
      if track.current_resource_index = i then some (i, track)
      else
        some (i, { track with
          resources := set_open_flag
            (set_open_flag track.resources track.current_resource_index false) i true,
          current_resource_index := i })

/-- The value of `AVERROR_EOF` (FFERRTAG of "EOF "); any nonzero value makes
the `!ret` loop condition fail. -/
def AVERROR_EOF : ℤ := -541478725

/-- The packet pump of `imf_read_packet` (imfdec.c:759-801): the
`while (!ff_check_interrupt(...) && !ret)` loop.  `i` is the covering
resource index (`resource_to_read` is `&track->resources[i]`), `cur_dts` is
`ffstream(s->streams[track->index])->cur_dts`, and `ret` enters as `0`. -/
def pump_loop (track : IMFVirtualTrackPlaybackCtx) (i : ℕ) (cur_dts : ℤ) :
    List ChildRead → List Bool → ℤ → ReadResult × IMFVirtualTrackPlaybackCtx
  | [], _ints, _ret => (ReadResult.eof, track)
  | r :: rest, ints, ret =>
    if ints.headD false = false ∧ ret = 0 then
      match r with
      | ChildRead.pkt _cpts cdts cdur =>
        let h := track.resources.getD i default_handle
        let dts1 := if cdts < cur_dts ∧ 0 < track.last_pts then cur_dts else cdts
        (ReadResult.packet
          { pts := track.last_pts,
            dts := dts1 - (h.resource.base.entry_point : ℤ),
            duration := cdur,
            stream_index := track.index },
         { track with
             current_timestamp :=
               track.current_timestamp + (cdur : ℚ) * h.time_base,
             last_pts := track.last_pts + cdur })
      | ChildRead.eof => pump_loop track i cur_dts rest ints.tail AVERROR_EOF
      | ChildRead.err c => (ReadResult.err c, track)
    else (ReadResult.eof, track)

/-- imf_read_packet (imfdec.c:732-802) for an already-selected track: the
end-of-track test, resource selection, the no-resource error split, and the
packet pump with its timestamp rewriting and cursor advance. -/
def imf_read_packet_on_track (track : IMFVirtualTrackPlaybackCtx)
    (cur_dts : ℤ) (ints : List Bool) (reads : List ChildRead) :
    ReadResult × IMFVirtualTrackPlaybackCtx :=
  if track.current_timestamp = track.duration then (ReadResult.eof, track)
  else
    match get_resource_context_for_timestamp track with
    | some it => pump_loop it.2 it.1 cur_dts reads ints 0
    | none =>
      let eu := ((track.resources.getD track.current_resource_index
        default_handle).resource.base.edit_rate)⁻¹
      if track.duration < track.current_timestamp + eu then (ReadResult.eof, track)
      else (ReadResult.streamNotFound, track)

/-- imf_read_packet over the whole track table: select the track with least
timestamp, run the per-track body on it, and store the updated track back.
`none` models the undefined behaviour of dereferencing the uninitialized
`track` pointer. -/
def imf_read_packet (tracks : List IMFVirtualTrackPlaybackCtx)
    (cur_dts : ℤ) (ints : List Bool) (reads : List ChildRead) :
    Option (ReadResult × List IMFVirtualTrackPlaybackCtx) :=
  match get_next_track_with_minimum_timestamp tracks with
  | none => none
  | some k =>
    match tracks.get? k with
    | none => none
    | some t =>
      let r := imf_read_packet_on_track t cur_dts ints reads
      some (r.1, tracks.set k r.2)

/-- A freshly opened playback handle as built by `open_track_file_resource`
followed by `open_track_resource_context` (imfdec.c:456-462): the handle
references the CPL resource and its child context is open.  `tb` is the time
base of the child file's first stream. -/
def open_track_resource_handle (r : FFIMFTrackFileResource) (tb : ℚ) :
    IMFVirtualTrackResourcePlaybackCtx :=
  { resource := r, isOpen := true, time_base := tb }

/-- The repeat-expansion loop of `open_track_file_resource`
(imfdec.c:456-466): appends one opened handle per repeat and accumulates
`av_make_q(duration * edit_rate.den, edit_rate.num)`, i.e. exactly
`duration / edit_rate`, onto the track duration. -/
def open_track_file_resource_loop (r : FFIMFTrackFileResource) (tb : ℚ) :
    ℕ → IMFVirtualTrackPlaybackCtx → IMFVirtualTrackPlaybackCtx
  | 0, track => track
  | n + 1, track =>
    open_track_file_resource_loop r tb n
      { track with
          resources := track.resources ++ [open_track_resource_handle r tb],
          duration := track.duration + (r.base.duration : ℚ) / r.base.edit_rate }

/-- open_track_file_resource (imfdec.c:424-469), restricted to its effect on
the track state (asset lookup and allocation are outside the model). -/
def open_track_file_resource (r : FFIMFTrackFileResource) (tb : ℚ)
    (track : IMFVirtualTrackPlaybackCtx) : IMFVirtualTrackPlaybackCtx :=
  open_track_file_resource_loop r tb r.base.repeat_count track

/-- open_virtual_track (imfdec.c:480-525): build the playback state for one
CPL virtual track, opening every resource of every repeat.  Each CPL resource
is paired with the time base of its track file's first stream. -/
def open_virtual_track (rs : List (FFIMFTrackFileResource × ℚ)) (idx : ℤ) :
    IMFVirtualTrackPlaybackCtx :=
  rs.foldl (fun track p => open_track_file_resource p.1 p.2 track)
    { index := idx, current_timestamp := 0, duration := 0, resources := [],
      current_resource_index := 0, last_pts := 0 }

/-- Child packet durations that are non-negative (the hypothesis under which
the spec asserts timestamp monotonicity). -/
def child_read_nonneg : ChildRead → Prop
  | ChildRead.pkt _ _ d => 0 ≤ d
  | _ => True

instance : DecidablePred child_read_nonneg := by
  intro r
  cases r <;> simp only [child_read_nonneg] <;> infer_instance

/-- Track states reachable in the lifecycle the spec talks about: the state
right after `open`, plus everything `imf_read_packet` can produce from it
when the child demuxers deliver non-negative packet durations. -/
inductive reachable_track : IMFVirtualTrackPlaybackCtx → Prop where
  | base (rs : List (FFIMFTrackFileResource × ℚ)) (idx : ℤ) :
      rs ≠ [] →
      (∀ p ∈ rs, 1 ≤ p.1.base.repeat_count) →
      (∀ p ∈ rs, 0 ≤ p.2) →
      reachable_track (open_virtual_track rs idx)
  | step (t t' : IMFVirtualTrackPlaybackCtx) (cd : ℤ) (ints : List Bool)
      (reads : List ChildRead) (res : ReadResult) :
      reachable_track t →
      (∀ r ∈ reads, child_read_nonneg r) →
      imf_read_packet_on_track t cd ints reads = (res, t') →
      reachable_track t'

/-- Invariant maintained by playback on a track: the cursor is in range,
every resource from the cursor to the end of the track has an open child
(so in particular the current resource's child is open), the cursor has
passed every resource before it (their cumulated durations are more than
one edit unit behind `current_timestamp`), and all recorded child time
bases are non-negative. -/
def track_open_invariant (t : IMFVirtualTrackPlaybackCtx) : Prop :=
  t.current_resource_index < t.resources.length ∧
  (∀ j, t.current_resource_index ≤ j → j < t.resources.length →
    (t.resources.getD j default_handle).isOpen = true) ∧
  (∀ j, j < t.current_resource_index →
    ¬ (t.current_timestamp +
        ((t.resources.getD 0 default_handle).resource.base.edit_rate)⁻¹ ≤
      cumulated_durations
        ((t.resources.getD 0 default_handle).resource.base.edit_rate)⁻¹
        t.resources (j + 1))) ∧
  (∀ j, 0 ≤ (t.resources.getD j default_handle).time_base)

/-- Read character `i` of a NUL-terminated C string. -/
def c_str_get (s : List Char) (i : ℕ) : Char := s.getD i (Char.ofNat 0)

/-- Does `pat` occur at the start of `text`. -/
def occurs_at_start : List Char → List Char → Bool
  | [], _ => true
  | _ :: _, [] => false
  | p :: ps, c :: cs => p == c && occurs_at_start ps cs

/-- Does `pat` occur contiguously anywhere in `text` (models `strstr`). -/
def occurs_in (pat : List Char) : List Char → Bool
  | [] => occurs_at_start pat []
  | c :: cs => occurs_at_start pat (c :: cs) || occurs_in pat cs

/-- imf_uri_is_url (imfdec.c:114-117): the string contains "://". -/
def imf_uri_is_url (s : List Char) : Bool := occurs_in ("://".toList) s

/-- imf_uri_is_unix_abs_path (imfdec.c:119-122): starts with a slash. -/
def imf_uri_is_unix_abs_path (s : List Char) : Bool := c_str_get s 0 == '/'

/-- imf_uri_is_dos_abs_path (imfdec.c:124-139): `X:\`, `X:/` or a leading
`\\` UNC prefix. -/
def imf_uri_is_dos_abs_path (s : List Char) : Bool :=
  (c_str_get s 1 == ':' && c_str_get s 2 == '\\') ||
  (c_str_get s 1 == ':' && c_str_get s 2 == '/') ||
  (c_str_get s 0 == '\\' && c_str_get s 1 == '\\')

/-- Modelled from the spec: `av_append_path_component` (libavutil, not under
src/) joins the Asset Map document's directory and the relative path with a
path separator; the spec only requires that the relative path is "resolved
against the directory component of the Asset Map document's own URL". -/
def av_append_path_component (base uri : List Char) : List Char :=
  base ++ '/' :: uri

/-- The absolute-URI computation of `parse_imf_asset_map_from_xml_dom`
(imfdec.c:216-220): use the Path verbatim when it is a URL or an absolute
POSIX/Windows path, otherwise resolve it against the Asset Map's base URL. -/
def asset_absolute_uri (base_url uri : List Char) : List Char :=
  if !imf_uri_is_url uri && !imf_uri_is_unix_abs_path uri
      && !imf_uri_is_dos_abs_path uri then
    av_append_path_component base_url uri
  else uri

/-- An entry of the UUID → URI table (IMFAssetLocator, imfdec.c:67-70). -/
structure IMFAssetLocator where
  uuid : List ℕ
  absolute_uri : List Char
  deriving DecidableEq, Repr

/-- One child element of an AssetList, as seen by
`parse_imf_asset_map_from_xml_dom`.  The XML readers
(`ff_xml_read_uuid`, `ff_xml_get_child_element_by_name`) are outside src/;
modelled from the spec: `id?` is the parsed `Id` UUID (none when missing or
unparseable), `hasChunkList`/`hasChunk` record whether the `ChunkList` and
`Chunk` children exist, and `path` is the text of `Chunk/Path`. -/
structure AssetElement where
  name : List Char
  id? : Option (List ℕ)
  hasChunkList : Bool
  hasChunk : Bool
  path : List Char
  deriving DecidableEq, Repr

/-- av_tolower on ASCII, as used by `av_strcasecmp`. -/
def av_to_lower (c : Char) : Char :=
  if 'A' ≤ c ∧ c ≤ 'Z' then Char.ofNat (c.toNat + 32) else c

/-- av_strcasecmp(a, b) == 0: case-insensitive ASCII equality. -/
def av_strcase_eq (a b : List Char) : Bool :=
  a.map av_to_lower == b.map av_to_lower

/-- One evaluation of the asset-iteration `while` body of
`parse_imf_asset_map_from_xml_dom` (imfdec.c:192-230): `done` models the
loop guard failing (`asset_element == NULL`), `cont` gives the cursor and
accumulated assets for the next iteration, `fail` models an
AVERROR_INVALIDDATA return. -/
inductive AmLoopStep where
  | done (assets : List IMFAssetLocator)
  | cont (cursor : ℕ) (assets : List IMFAssetLocator)
  | fail
  deriving DecidableEq, Repr

/-- The loop body: note that for a child whose name is not "Asset" the C code
executes `continue` without running the `asset_element =
xmlNextElementSibling(asset_element)` statement at the bottom of the loop, so
the cursor does not move. -/
def asset_map_loop_body (base_url : List Char) (children : List AssetElement)
    (cursor : ℕ) (acc : List IMFAssetLocator) : AmLoopStep :=
  match children.get? cursor with
  | none => AmLoopStep.done acc
  | some el =>
    if av_strcase_eq el.name ("Asset".toList) = false then AmLoopStep.cont cursor acc
    else
      match el.id? with
      | none => AmLoopStep.fail
      | some uuid =>
        if !el.hasChunkList then AmLoopStep.fail
        else if !el.hasChunk then AmLoopStep.fail
        else
          AmLoopStep.cont (cursor + 1)
            (acc ++ [{ uuid := uuid,
                       absolute_uri := asset_absolute_uri base_url el.path }])

/-- Result of running the asset loop to completion. -/
inductive AmRunResult where
  | ok (assets : List IMFAssetLocator)
  | invalidData
  deriving DecidableEq, Repr

/-- Run the asset-iteration loop for at most `fuel` iterations; `none` means
the loop is still running after `fuel` iterations. -/
def asset_map_loop_run (base_url : List Char) (children : List AssetElement) :
    ℕ → ℕ → List IMFAssetLocator → Option AmRunResult
  | 0, _, _ => none
  | fuel + 1, cursor, acc =>
    match asset_map_loop_body base_url children cursor acc with
    | AmLoopStep.done a => some (AmRunResult.ok a)
    | AmLoopStep.fail => some AmRunResult.invalidData
    | AmLoopStep.cont c a => asset_map_loop_run base_url children fuel c a

/-! Concrete states used by the witness and counterexample theorems. -/

/-- A track whose `current_timestamp` has reached `INT32_MAX` seconds. -/
def c1_saturated_track : IMFVirtualTrackPlaybackCtx :=
  { index := 0, current_timestamp := INT32_MAX_Q, duration := INT32_MAX_Q,
    resources := [], current_resource_index := 0, last_pts := 0 }

def c1_track_a : IMFVirtualTrackPlaybackCtx :=
  { index := 0, current_timestamp := 1, duration := 2, resources := [],
    current_resource_index := 0, last_pts := 0 }

def c1_track_b : IMFVirtualTrackPlaybackCtx :=
  { index := 1, current_timestamp := 0, duration := 2, resources := [],
    current_resource_index := 0, last_pts := 0 }

/-- The outcome claim C2 predicts when no resource covers the timestamp,
with the edit unit taken from `resources[0]` as the claim states it
(the code instead uses `resources[current_resource_index]`). -/
def c2_claimed_no_match_outcome (track : IMFVirtualTrackPlaybackCtx) : ReadResult :=
  let eu := ((track.resources.getD 0 default_handle).resource.base.edit_rate)⁻¹
  if track.duration < track.current_timestamp + eu then ReadResult.eof
  else ReadResult.streamNotFound

/-- First resource of the C2 state: 2 edit units at edit rate 2 (one second
of content, one second of selector-visible cumulated duration). -/
def c2_res_a : FFIMFTrackFileResource :=
  { base := { edit_rate := 2, entry_point := 0, duration := 2, repeat_count := 1 },
    track_file_uuid := [] }

/-- Second resource of the C2 state: 1 edit unit at edit rate 1 (one second
of content, but only half a second of cumulated duration because the
selector prices every resource at the edit unit of `resources[0]`). -/
def c2_res_b : FFIMFTrackFileResource :=
  { base := { edit_rate := 1, entry_point := 0, duration := 1, repeat_count := 1 },
    track_file_uuid := [] }

/-- A track whose cursor sits on its second resource, past the cumulated
duration but less than one resource-1 edit unit from the track end. -/
def c2_track : IMFVirtualTrackPlaybackCtx :=
  { index := 0, current_timestamp := 5/4, duration := 2,
    resources := [{ resource := c2_res_a, isOpen := false, time_base := 1/2 },
                  { resource := c2_res_b, isOpen := true, time_base := 1 }],
    current_resource_index := 1, last_pts := 3 }

def c3_res : FFIMFTrackFileResource :=
  { base := { edit_rate := 1, entry_point := 0, duration := 2, repeat_count := 1 },
    track_file_uuid := [] }

/-- A track that has played out: `current_timestamp = duration`. -/
def c3_track : IMFVirtualTrackPlaybackCtx :=
  { index := 0, current_timestamp := 2, duration := 2,
    resources := [{ resource := c3_res, isOpen := true, time_base := 1 }],
    current_resource_index := 0, last_pts := 2 }

def c4_res : FFIMFTrackFileResource :=
  { base := { edit_rate := 1, entry_point := 0, duration := 2, repeat_count := 1 },
    track_file_uuid := [] }

def c4_track : IMFVirtualTrackPlaybackCtx :=
  { index := 0, current_timestamp := 0, duration := 2,
    resources := [{ resource := c4_res, isOpen := true, time_base := 1 }],
    current_resource_index := 0, last_pts := 0 }

def c5_res : FFIMFTrackFileResource :=
  { base := { edit_rate := 1, entry_point := 7, duration := 2, repeat_count := 1 },
    track_file_uuid := [] }

def c5_track : IMFVirtualTrackPlaybackCtx :=
  { index := 2, current_timestamp := 0, duration := 2,
    resources := [{ resource := c5_res, isOpen := true, time_base := 1 }],
    current_resource_index := 0, last_pts := 0 }

/-- A CPL resource with `repeat_count = 2` for the C6 state. -/
def c6_res : FFIMFTrackFileResource :=
  { base := { edit_rate := 24, entry_point := 0, duration := 48, repeat_count := 2 },
    track_file_uuid := [] }

def c8_res : FFIMFTrackFileResource :=
  { base := { edit_rate := 1, entry_point := 0, duration := 2, repeat_count := 1 },
    track_file_uuid := [] }

/-- A track in mid-playback (`current_timestamp < duration`) whose covering
resource is the current one. -/
def c8_track : IMFVirtualTrackPlaybackCtx :=
  { index := 0, current_timestamp := 0, duration := 2,
    resources := [{ resource := c8_res, isOpen := true, time_base := 1 }],
    current_resource_index := 0, last_pts := 0 }

/-- An AssetList child element whose name is not "Asset". -/
def c10_bad_child : AssetElement :=
  { name := "Annotation".toList, id? := none, hasChunkList := false,
    hasChunk := false, path := [] }

/-! Theorems.  First the supporting lemmas, then one theorem per claim. -/

lemma next_track_loop_no_update (l : List IMFVirtualTrackPlaybackCtx) (i : ℕ)
    (best : Option ℕ) (m : ℚ)
    (h : ∀ t ∈ l, ¬ t.current_timestamp < m) :
    next_track_loop l i best m = (best, m) := by
  induction l generalizing i with
  | nil => rfl
  | cons t rest ih =>
    rw [next_track_loop, if_neg (h t (List.mem_cons_self t rest))]
    exact ih (i + 1) fun u hu => h u (List.mem_cons_of_mem t hu)

lemma next_track_loop_found (l : List IMFVirtualTrackPlaybackCtx) :
    ∀ (i : ℕ) (best : Option ℕ) (m : ℚ),
      (∃ t ∈ l, t.current_timestamp < m) →
      ∃ j u, l.get? j = some u ∧
        (next_track_loop l i best m).1 = some (i + j) ∧
        u.current_timestamp < m ∧
        (∀ k v, l.get? k = some v → u.current_timestamp ≤ v.current_timestamp) ∧
        (∀ k v, k < j → l.get? k = some v →
          u.current_timestamp < v.current_timestamp) := by
  induction l with
  | nil =>
    intro i best m h
    obtain ⟨t, ht, _⟩ := h
    cases ht
  | cons t rest ih =>
    intro i best m hex
    by_cases ht : t.current_timestamp < m
    · by_cases hr : ∃ u ∈ rest, u.current_timestamp < t.current_timestamp
      · obtain ⟨j, u, hg, hres, hu, hmin, hstrict⟩ :=
          ih (i + 1) (some i) t.current_timestamp hr
        refine ⟨j + 1, u, by simpa using hg, ?_, lt_trans hu ht, ?_, ?_⟩
        · rw [next_track_loop, if_pos ht, hres]
          congr 1
          omega
        · intro k v hk
          cases k with
          | zero =>
            have hv : t = v := by simpa using hk
            exact hv ▸ le_of_lt hu
          | succ k => exact hmin k v (by simpa using hk)
        · intro k v hkj hk
          cases k with
          | zero =>
            have hv : t = v := by simpa using hk
            exact hv ▸ hu
          | succ k => exact hstrict k v (by omega) (by simpa using hk)
      · have hr' : ∀ u ∈ rest, ¬ u.current_timestamp < t.current_timestamp :=
          fun u hu h => hr ⟨u, hu, h⟩
        refine ⟨0, t, rfl, ?_, ht, ?_, ?_⟩
        · rw [next_track_loop, if_pos ht,
            next_track_loop_no_update rest (i + 1) (some i) t.current_timestamp hr']
          simp
        · intro k v hk
          cases k with
          | zero =>
            have hv : t = v := by simpa using hk
            exact hv ▸ le_refl _
          | succ k =>
            exact not_lt.mp (hr' v (List.get?_mem (by simpa using hk)))
        · intro k v hkj hk
          omega
    · obtain ⟨t0, ht0, hlt⟩ := hex
      have hrest : ∃ u ∈ rest, u.current_timestamp < m := by
        rcases List.mem_cons.mp ht0 with h | h
        · exact absurd (h ▸ hlt) ht
        · exact ⟨t0, h, hlt⟩
      obtain ⟨j, u, hg, hres, hu, hmin, hstrict⟩ := ih (i + 1) best m hrest
      refine ⟨j + 1, u, by simpa using hg, ?_, hu, ?_, ?_⟩
      · rw [next_track_loop, if_neg ht, hres]
        congr 1
        omega
      · intro k v hk
        cases k with
        | zero =>
          have hv : t = v := by simpa using hk
          exact hv ▸ le_of_lt (lt_of_lt_of_le hu (not_lt.mp ht))
        | succ k => exact hmin k v (by simpa using hk)
      · intro k v hkj hk
        cases k with
        | zero =>
          have hv : t = v := by simpa using hk
          exact hv ▸ lt_of_lt_of_le hu (not_lt.mp ht)
        | succ k => exact hstrict k v (by omega) (by simpa using hk)

/-- Claim C1, amended: whenever at least one track has `current_timestamp`
below `INT32_MAX` seconds, `get_next_track_with_minimum_timestamp` returns
the track whose `current_timestamp` is least under exact Rational
comparison, with ties broken by the lower track index (the strict `<`
comparison keeps the earliest minimum).  When every track's timestamp is at
least `INT32_MAX` seconds the `track` pointer is never written, so the
result is the uninitialized pointer, not track 0 (see the counterexample
theorem). -/
theorem c1_track_selection_amended (tracks : List IMFVirtualTrackPlaybackCtx)
    (h : ∃ t ∈ tracks, t.current_timestamp < INT32_MAX_Q) :
    ∃ j u, tracks.get? j = some u ∧
      get_next_track_with_minimum_timestamp tracks = some j ∧
      (∀ k v, tracks.get? k = some v →
        u.current_timestamp ≤ v.current_timestamp) ∧
      (∀ k v, k < j → tracks.get? k = some v →
        u.current_timestamp < v.current_timestamp) := by
  obtain ⟨j, u, h1, h2, _, h4, h5⟩ :=
    next_track_loop_found tracks 0 none INT32_MAX_Q h
  exact ⟨j, u, h1, by simpa using h2, h4, h5⟩

/-- Claim C1 witness: on two concrete tracks with timestamps 1 and 0 the
selector picks the second track. -/
theorem c1_track_selection_witness :
    ∃ j u, [c1_track_a, c1_track_b].get? j = some u ∧
      get_next_track_with_minimum_timestamp [c1_track_a, c1_track_b] = some j ∧
      (∀ k v, [c1_track_a, c1_track_b].get? k = some v →
        u.current_timestamp ≤ v.current_timestamp) ∧
      (∀ k v, k < j → [c1_track_a, c1_track_b].get? k = some v →
        u.current_timestamp < v.current_timestamp) :=
  c1_track_selection_amended [c1_track_a, c1_track_b]
    ⟨c1_track_a, List.mem_cons_self _ _, by norm_num [c1_track_a, INT32_MAX_Q]⟩

/-- Claim C1 counterexample: for a single track whose `current_timestamp`
is exactly `INT32_MAX` seconds the loop never assigns the `track` pointer,
so the selector's result is the uninitialized pointer (modelled `none`),
not track 0 as the claim asserts. -/
theorem c1_track_selection_counterexample :
    get_next_track_with_minimum_timestamp [c1_saturated_track] = none := by
  norm_num [get_next_track_with_minimum_timestamp, next_track_loop,
    c1_saturated_track]

lemma cumulated_durations_zero (eu : ℚ)
    (rs : List IMFVirtualTrackResourcePlaybackCtx) :
    cumulated_durations eu rs 0 = 0 := by
  simp [cumulated_durations]

lemma cumulated_durations_cons (eu : ℚ) (h : IMFVirtualTrackResourcePlaybackCtx)
    (rest : List IMFVirtualTrackResourcePlaybackCtx) (n : ℕ) :
    cumulated_durations eu (h :: rest) (n + 1) =
      (h.resource.base.duration : ℚ) * eu + cumulated_durations eu rest n := by
  simp [cumulated_durations]

lemma find_covering_resource_some (ct eu : ℚ) :
    ∀ (rs : List IMFVirtualTrackResourcePlaybackCtx) (cum : ℚ) (i k : ℕ),
      find_covering_resource ct eu rs cum i = some k →
      ∃ j, k = i + j ∧ j < rs.length ∧
        ct + eu ≤ cum + cumulated_durations eu rs (j + 1) ∧
        ∀ j' < j, ¬ (ct + eu ≤ cum + cumulated_durations eu rs (j' + 1)) := by
  intro rs
  induction rs with
  | nil =>
    intro cum i k h
    cases h
  | cons h0 rest ih =>
    intro cum i k hk
    simp only [find_covering_resource] at hk
    by_cases hcond : ct + eu ≤ cum + (h0.resource.base.duration : ℚ) * eu
    · rw [if_pos hcond] at hk
      obtain rfl : i = k := by simpa using hk
      refine ⟨0, by omega, by simp, ?_, ?_⟩
      · rw [cumulated_durations_cons, cumulated_durations_zero]
        linarith
      · intro j' hj'
        omega
    · rw [if_neg hcond] at hk
      obtain ⟨j, hkj, hjlen, hle, hmin⟩ :=
        ih (cum + (h0.resource.base.duration : ℚ) * eu) (i + 1) k hk
      refine ⟨j + 1, by omega, by simpa using Nat.succ_lt_succ hjlen, ?_, ?_⟩
      · rw [cumulated_durations_cons]
        linarith
      · intro j' hj'
        cases j' with
        | zero =>
          rw [cumulated_durations_cons, cumulated_durations_zero]
          intro hcontra
          exact hcond (by linarith)
        | succ j'' =>
          intro hcontra
          refine hmin j'' (by omega) ?_
          rw [cumulated_durations_cons] at hcontra
          linarith

lemma find_covering_resource_none (ct eu : ℚ) :
    ∀ (rs : List IMFVirtualTrackResourcePlaybackCtx) (cum : ℚ) (i : ℕ),
      find_covering_resource ct eu rs cum i = none →
      ∀ j < rs.length, ¬ (ct + eu ≤ cum + cumulated_durations eu rs (j + 1)) := by
  intro rs
  induction rs with
  | nil =>
    intro cum i _ j hj
    simp at hj
  | cons h0 rest ih =>
    intro cum i hnone j hj
    simp only [find_covering_resource] at hnone
    by_cases hcond : ct + eu ≤ cum + (h0.resource.base.duration : ℚ) * eu
    · rw [if_pos hcond] at hnone
      cases hnone
    · rw [if_neg hcond] at hnone
      cases j with
      | zero =>
        rw [cumulated_durations_cons, cumulated_durations_zero]
        intro hcontra
        exact hcond (by linarith)
      | succ j' =>
        have := ih (cum + (h0.resource.base.duration : ℚ) * eu) (i + 1) hnone j'
          (by simpa using hj)
        rw [cumulated_durations_cons]
        intro hcontra
        exact this (by linarith)

lemma get_resource_context_find (t : IMFVirtualTrackPlaybackCtx)
    (r0 : IMFVirtualTrackResourcePlaybackCtx) (i : ℕ)
    (t1 : IMFVirtualTrackPlaybackCtx)
    (h0 : t.resources.head? = some r0)
    (h : get_resource_context_for_timestamp t = some (i, t1)) :
    find_covering_resource t.current_timestamp
      (r0.resource.base.edit_rate)⁻¹ t.resources 0 0 = some i := by
  unfold get_resource_context_for_timestamp at h
  simp only [h0] at h
  cases heq : find_covering_resource t.current_timestamp
      (r0.resource.base.edit_rate)⁻¹ t.resources 0 0 with
  | none =>
    simp only [heq] at h
    cases h
  | some i' =>
    simp only [heq] at h
    split at h <;> simp_all

lemma get_resource_context_shape (t : IMFVirtualTrackPlaybackCtx) (i : ℕ)
    (t1 : IMFVirtualTrackPlaybackCtx)
    (h : get_resource_context_for_timestamp t = some (i, t1)) :
    (t.current_resource_index = i ∧ t1 = t) ∨
    (t.current_resource_index ≠ i ∧
      t1 = { t with
        resources := set_open_flag
          (set_open_flag t.resources t.current_resource_index false) i true,
        current_resource_index := i }) := by
  unfold get_resource_context_for_timestamp at h
  cases h0 : t.resources.head? with
  | none =>
    simp only [h0] at h
    cases h
  | some r0 =>
    simp only [h0] at h
    cases heq : find_covering_resource t.current_timestamp
        (r0.resource.base.edit_rate)⁻¹ t.resources 0 0 with
    | none =>
      simp only [heq] at h
      cases h
    | some i' =>
      simp only [heq] at h
      split at h
      · left
        rename_i hcri
        simp only [Option.some.injEq, Prod.mk.injEq] at h
        obtain ⟨rfl, rfl⟩ := h
        exact ⟨hcri, rfl⟩
      · right
        rename_i hcri
        simp only [Option.some.injEq, Prod.mk.injEq] at h
        obtain ⟨rfl, rfl⟩ := h
        exact ⟨hcri, rfl⟩

lemma get_resource_context_none_read (t : IMFVirtualTrackPlaybackCtx)
    (cd : ℤ) (ints : List Bool) (reads : List ChildRead)
    (hne : ¬ t.current_timestamp = t.duration)
    (hnone : get_resource_context_for_timestamp t = none) :
    imf_read_packet_on_track t cd ints reads =
      ((if t.duration < t.current_timestamp +
          ((t.resources.getD t.current_resource_index
            default_handle).resource.base.edit_rate)⁻¹
        then ReadResult.eof else ReadResult.streamNotFound), t) := by
  unfold imf_read_packet_on_track
  rw [if_neg hne]
  simp only [hnone]
  split <;> rfl

/-- Claim C2, amended: the covering resource is the first index `i` with
`current_timestamp + eu ≤ Σ_{j ≤ i} source_duration_j × eu` where
`eu = 1/resources[0].edit_rate`; when no resource matches, `imf_read_packet`
returns EndOfStream exactly when `current_timestamp + eu'` exceeds the track
duration with `eu' = 1/resources[current_resource_index].edit_rate` — the
edit unit of the resource at the current cursor, not of `resources[0]` as
the claim states — and StreamNotFound otherwise. -/
theorem c2_resource_selection_amended :
    (∀ (t : IMFVirtualTrackPlaybackCtx)
       (r0 : IMFVirtualTrackResourcePlaybackCtx) (i : ℕ)
       (t1 : IMFVirtualTrackPlaybackCtx),
      t.resources.head? = some r0 →
      get_resource_context_for_timestamp t = some (i, t1) →
      i < t.resources.length ∧
      t.current_timestamp + (r0.resource.base.edit_rate)⁻¹ ≤
        cumulated_durations (r0.resource.base.edit_rate)⁻¹ t.resources (i + 1) ∧
      (∀ j < i, ¬ (t.current_timestamp + (r0.resource.base.edit_rate)⁻¹ ≤
        cumulated_durations (r0.resource.base.edit_rate)⁻¹ t.resources (j + 1)))) ∧
    (∀ (t : IMFVirtualTrackPlaybackCtx)
       (r0 : IMFVirtualTrackResourcePlaybackCtx),
      t.resources.head? = some r0 →
      get_resource_context_for_timestamp t = none →
      ∀ j < t.resources.length,
        ¬ (t.current_timestamp + (r0.resource.base.edit_rate)⁻¹ ≤
          cumulated_durations (r0.resource.base.edit_rate)⁻¹ t.resources (j + 1))) ∧
    (∀ (t : IMFVirtualTrackPlaybackCtx) (cd : ℤ) (ints : List Bool)
       (reads : List ChildRead),
      ¬ t.current_timestamp = t.duration →
      get_resource_context_for_timestamp t = none →
      imf_read_packet_on_track t cd ints reads =
        ((if t.duration < t.current_timestamp +
            ((t.resources.getD t.current_resource_index
              default_handle).resource.base.edit_rate)⁻¹
          then ReadResult.eof else ReadResult.streamNotFound), t)) := by
  refine ⟨?_, ?_, ?_⟩
  · intro t r0 i t1 h0 h
    obtain ⟨j, hij, hjlen, hle, hmin⟩ :=
      find_covering_resource_some t.current_timestamp
        (r0.resource.base.edit_rate)⁻¹ t.resources 0 0 i
        (get_resource_context_find t r0 i t1 h0 h)
    obtain rfl : i = j := by omega
    refine ⟨hjlen, by simpa using hle, ?_⟩
    intro j' hj' hcontra
    exact hmin j' hj' (by simpa using hcontra)
  · intro t r0 h0 hnone j hj
    have hfind : find_covering_resource t.current_timestamp
        (r0.resource.base.edit_rate)⁻¹ t.resources 0 0 = none := by
      unfold get_resource_context_for_timestamp at hnone
      simp only [h0] at hnone
      cases heq : find_covering_resource t.current_timestamp
          (r0.resource.base.edit_rate)⁻¹ t.resources 0 0 with
      | none => rfl
      | some i' =>
        simp only [heq] at hnone
        split at hnone <;> cases hnone
    have := find_covering_resource_none t.current_timestamp
      (r0.resource.base.edit_rate)⁻¹ t.resources 0 0 hfind j hj
    intro hcontra
    exact this (by simpa using hcontra)
  · exact get_resource_context_none_read

/-- Claim C2 witness: the no-match error split evaluated on the concrete
`c2_track` state (the result is EndOfStream because one edit unit of the
current resource overshoots the track duration). -/
theorem c2_resource_selection_witness :
    imf_read_packet_on_track c2_track 0 [] [] =
      ((if c2_track.duration < c2_track.current_timestamp +
          ((c2_track.resources.getD c2_track.current_resource_index
            default_handle).resource.base.edit_rate)⁻¹
        then ReadResult.eof else ReadResult.streamNotFound), c2_track) :=
  c2_resource_selection_amended.2.2 c2_track 0 [] []
    (by norm_num [c2_track])
    (by norm_num [get_resource_context_for_timestamp, find_covering_resource,
      c2_track, c2_res_a, c2_res_b])

/-- Claim C2 counterexample: on `c2_track` (cursor on resource 1, whose edit
rate 1 differs from resource 0's edit rate 2) no resource matches, the code
returns EndOfStream, yet the claim — whose edit unit `eu` is
`1/resources[0].edit_rate` — predicts StreamNotFound because
`current_timestamp + eu` does not exceed the track duration. -/
theorem c2_resource_selection_counterexample :
    (imf_read_packet_on_track c2_track 0 [] []).1 = ReadResult.eof ∧
    c2_claimed_no_match_outcome c2_track = ReadResult.streamNotFound ∧
    get_resource_context_for_timestamp c2_track = none ∧
    c2_track.current_timestamp < c2_track.duration := by
  refine ⟨?_, ?_, ?_, ?_⟩
  · norm_num [imf_read_packet_on_track, get_resource_context_for_timestamp,
      find_covering_resource, c2_track, c2_res_a, c2_res_b, default_handle]
  · norm_num [c2_claimed_no_match_outcome, c2_track, c2_res_a, c2_res_b,
      default_handle]
  · norm_num [get_resource_context_for_timestamp, find_covering_resource,
      c2_track, c2_res_a, c2_res_b]
  · norm_num [c2_track]

lemma list_set_get_self {α : Type} :
    ∀ (l : List α) (k : ℕ) (a : α), l.get? k = some a → l.set k a = l := by
  intro l
  induction l with
  | nil =>
    intro k a h
    cases h
  | cons x xs ih =>
    intro k a h
    cases k with
    | zero =>
      have : x = a := by simpa using h
      simp [List.set, this]
    | succ n =>
      simp only [List.set]
      rw [ih n a (by simpa using h)]

/-- Claim C3: when the selected track's `current_timestamp` equals its
`duration` under exact Rational comparison, `imf_read_packet` returns
EndOfStream and the whole track table is unchanged — in particular no
resource selection happens and no child demuxer is opened. -/
theorem c3_end_of_track (tracks : List IMFVirtualTrackPlaybackCtx) (k : ℕ)
    (t : IMFVirtualTrackPlaybackCtx) (cd : ℤ) (ints : List Bool)
    (reads : List ChildRead)
    (hsel : get_next_track_with_minimum_timestamp tracks = some k)
    (hget : tracks.get? k = some t)
    (hend : t.current_timestamp = t.duration) :
    imf_read_packet tracks cd ints reads = some (ReadResult.eof, tracks) := by
  have hbody : imf_read_packet_on_track t cd ints reads = (ReadResult.eof, t) := by
    unfold imf_read_packet_on_track
    rw [if_pos hend]
  unfold imf_read_packet
  simp only [hsel, hget, hbody]
  rw [list_set_get_self tracks k t hget]

/-- Claim C3 witness: a concrete played-out track (timestamp 2 of duration
2) makes the packet-read call report EndOfStream with the state intact. -/
theorem c3_end_of_track_witness :
    imf_read_packet [c3_track] 0 [] [] = some (ReadResult.eof, [c3_track]) :=
  c3_end_of_track [c3_track] 0 c3_track 0 [] []
    (by norm_num [get_next_track_with_minimum_timestamp, next_track_loop,
      c3_track, INT32_MAX_Q])
    rfl
    (by norm_num [c3_track])

lemma set_open_flag_length :
    ∀ (l : List IMFVirtualTrackResourcePlaybackCtx) (j : ℕ) (b : Bool),
      (set_open_flag l j b).length = l.length := by
  intro l
  induction l with
  | nil =>
    intro j b
    rfl
  | cons h rest ih =>
    intro j b
    cases j with
    | zero => rfl
    | succ j => simpa [set_open_flag] using ih j b

lemma set_open_flag_getD_resource :
    ∀ (l : List IMFVirtualTrackResourcePlaybackCtx) (j k : ℕ) (b : Bool),
      ((set_open_flag l j b).getD k default_handle).resource =
        (l.getD k default_handle).resource := by
  intro l
  induction l with
  | nil =>
    intro j k b
    rfl
  | cons h rest ih =>
    intro j k b
    cases j with
    | zero =>
      cases k with
      | zero => rfl
      | succ k => rfl
    | succ j =>
      cases k with
      | zero => rfl
      | succ k => simpa [set_open_flag] using ih j k b

lemma set_open_flag_getD_time_base :
    ∀ (l : List IMFVirtualTrackResourcePlaybackCtx) (j k : ℕ) (b : Bool),
      ((set_open_flag l j b).getD k default_handle).time_base =
        (l.getD k default_handle).time_base := by
  intro l
  induction l with
  | nil =>
    intro j k b
    rfl
  | cons h rest ih =>
    intro j k b
    cases j with
    | zero =>
      cases k with
      | zero => rfl
      | succ k => rfl
    | succ j =>
      cases k with
      | zero => rfl
      | succ k => simpa [set_open_flag] using ih j k b

lemma get_resource_context_fields (t : IMFVirtualTrackPlaybackCtx) (i : ℕ)
    (t1 : IMFVirtualTrackPlaybackCtx)
    (h : get_resource_context_for_timestamp t = some (i, t1)) :
    t1.last_pts = t.last_pts ∧ t1.current_timestamp = t.current_timestamp ∧
    t1.duration = t.duration ∧ t1.index = t.index ∧
    t1.current_resource_index = i ∧
    t1.resources.length = t.resources.length ∧
    (∀ k, ((t1.resources.getD k default_handle).resource =
        (t.resources.getD k default_handle).resource) ∧
      ((t1.resources.getD k default_handle).time_base =
        (t.resources.getD k default_handle).time_base)) := by
  rcases get_resource_context_shape t i t1 h with ⟨hcri, rfl⟩ | ⟨_hne, rfl⟩
  · exact ⟨rfl, rfl, rfl, rfl, hcri, rfl, fun k => ⟨rfl, rfl⟩⟩
  · refine ⟨rfl, rfl, rfl, rfl, rfl, ?_, ?_⟩
    · simp [set_open_flag_length]
    · intro k
      constructor
      · simp only []
        rw [set_open_flag_getD_resource, set_open_flag_getD_resource]
      · simp only []
        rw [set_open_flag_getD_time_base, set_open_flag_getD_time_base]

lemma pump_loop_cons (track : IMFVirtualTrackPlaybackCtx) (i : ℕ)
    (cur_dts : ℤ) (r : ChildRead) (rest : List ChildRead) (ints : List Bool)
    (ret : ℤ) :
    pump_loop track i cur_dts (r :: rest) ints ret =
      if ints.headD false = false ∧ ret = 0 then
        match r with
        | ChildRead.pkt _cpts cdts cdur =>
          let h := track.resources.getD i default_handle
          let dts1 := if cdts < cur_dts ∧ 0 < track.last_pts then cur_dts else cdts
          (ReadResult.packet
            { pts := track.last_pts,
              dts := dts1 - (h.resource.base.entry_point : ℤ),
              duration := cdur,
              stream_index := track.index },
           { track with
               current_timestamp :=
                 track.current_timestamp + (cdur : ℚ) * h.time_base,
               last_pts := track.last_pts + cdur })
        | ChildRead.eof => pump_loop track i cur_dts rest ints.tail AVERROR_EOF
        | ChildRead.err c => (ReadResult.err c, track)
      else (ReadResult.eof, track) := by
  rw [pump_loop.eq_def]

lemma pump_loop_success (track : IMFVirtualTrackPlaybackCtx) (i : ℕ)
    (cur_dts : ℤ) (cpts cdts cdur : ℤ) (rest : List ChildRead)
    (ints : List Bool) (hint : ints.headD false = false) :
    pump_loop track i cur_dts (ChildRead.pkt cpts cdts cdur :: rest) ints 0 =
      (ReadResult.packet
        { pts := track.last_pts,
          dts := (if cdts < cur_dts ∧ 0 < track.last_pts then cur_dts else cdts)
            - ((track.resources.getD i
              default_handle).resource.base.entry_point : ℤ),
          duration := cdur,
          stream_index := track.index },
       { track with
           current_timestamp := track.current_timestamp +
             (cdur : ℚ) * (track.resources.getD i default_handle).time_base,
           last_pts := track.last_pts + cdur }) := by
  rw [pump_loop_cons, if_pos ⟨hint, rfl⟩]

lemma pump_loop_packet_inv (track : IMFVirtualTrackPlaybackCtx) (i : ℕ)
    (cur_dts : ℤ) :
    ∀ (reads : List ChildRead) (ints : List Bool) (ret : ℤ)
      (p : EmittedPacket) (t' : IMFVirtualTrackPlaybackCtx),
      pump_loop track i cur_dts reads ints ret = (ReadResult.packet p, t') →
      p.pts = track.last_pts ∧ t'.last_pts = track.last_pts + p.duration := by
  intro reads
  induction reads with
  | nil =>
    intro ints ret p t' h
    simp [pump_loop] at h
  | cons r rest ih =>
    intro ints ret p t' h
    rw [pump_loop_cons] at h
    by_cases hc : ints.headD false = false ∧ ret = 0
    · rw [if_pos hc] at h
      cases r with
      | pkt cpts cdts cdur =>
        simp only [Prod.mk.injEq, ReadResult.packet.injEq] at h
        obtain ⟨rfl, rfl⟩ := h
        exact ⟨rfl, rfl⟩
      | eof => exact ih ints.tail AVERROR_EOF p t' h
      | err c => simp at h
    · rw [if_neg hc] at h
      simp at h

lemma imf_read_packet_on_track_packet_inv (t : IMFVirtualTrackPlaybackCtx)
    (cd : ℤ) (ints : List Bool) (reads : List ChildRead) (p : EmittedPacket)
    (t' : IMFVirtualTrackPlaybackCtx)
    (h : imf_read_packet_on_track t cd ints reads = (ReadResult.packet p, t')) :
    p.pts = t.last_pts ∧ t'.last_pts = t.last_pts + p.duration := by
  unfold imf_read_packet_on_track at h
  split at h
  · simp at h
  · cases hres : get_resource_context_for_timestamp t with
    | none =>
      simp only [hres] at h
      split at h <;> simp at h
    | some it =>
      obtain ⟨i, t1⟩ := it
      simp only [hres] at h
      have hinv := pump_loop_packet_inv t1 i cd reads ints 0 p t' h
      have hf := get_resource_context_fields t i t1 hres
      exact ⟨hf.1 ▸ hinv.1, hf.1 ▸ hinv.2⟩

/-- Claim C4: every emitted packet carries `pts` equal to the owning track's
`last_pts` as it was before the cursor advance of the same call, after which
`last_pts` grows by the packet's duration; hence for two successive packets
of the same track the later `pts` is the earlier `pts` plus the earlier
duration, and is no smaller when child packet durations are non-negative. -/
theorem c4_pts_monotonic (t t1 t2 : IMFVirtualTrackPlaybackCtx)
    (cd1 cd2 : ℤ) (i1 i2 : List Bool) (r1 r2 : List ChildRead)
    (p1 p2 : EmittedPacket)
    (h1 : imf_read_packet_on_track t cd1 i1 r1 = (ReadResult.packet p1, t1))
    (h2 : imf_read_packet_on_track t1 cd2 i2 r2 = (ReadResult.packet p2, t2))
    (hd : 0 ≤ p1.duration) :
    p1.pts = t.last_pts ∧ t1.last_pts = t.last_pts + p1.duration ∧
    p2.pts = p1.pts + p1.duration ∧ p1.pts ≤ p2.pts := by
  obtain ⟨hp1, hl1⟩ := imf_read_packet_on_track_packet_inv t cd1 i1 r1 p1 t1 h1
  obtain ⟨hp2, _⟩ := imf_read_packet_on_track_packet_inv t1 cd2 i2 r2 p2 t2 h2
  refine ⟨hp1, hl1, ?_, ?_⟩
  · rw [hp2, hl1, hp1]
  · rw [hp2, hl1, hp1]
    omega

/-- Claim C4 witness: two successive reads on the concrete `c4_track` emit
pts 0 then pts 1. -/
theorem c4_pts_monotonic_witness :
    ({ pts := 0, dts := 0, duration := 1, stream_index := 0 }
        : EmittedPacket).pts = c4_track.last_pts ∧
    ({ c4_track with current_timestamp := 1, last_pts := 1 }
        : IMFVirtualTrackPlaybackCtx).last_pts = c4_track.last_pts +
      ({ pts := 0, dts := 0, duration := 1, stream_index := 0 }
        : EmittedPacket).duration ∧
    ({ pts := 1, dts := 9, duration := 1, stream_index := 0 }
        : EmittedPacket).pts =
      ({ pts := 0, dts := 0, duration := 1, stream_index := 0 }
        : EmittedPacket).pts +
      ({ pts := 0, dts := 0, duration := 1, stream_index := 0 }
        : EmittedPacket).duration ∧
    ({ pts := 0, dts := 0, duration := 1, stream_index := 0 }
        : EmittedPacket).pts ≤
      ({ pts := 1, dts := 9, duration := 1, stream_index := 0 }
        : EmittedPacket).pts :=
  c4_pts_monotonic c4_track
    { c4_track with current_timestamp := 1, last_pts := 1 }
    { c4_track with current_timestamp := 2, last_pts := 2 }
    0 0 [] [] [ChildRead.pkt 0 0 1] [ChildRead.pkt 5 9 1]
    { pts := 0, dts := 0, duration := 1, stream_index := 0 }
    { pts := 1, dts := 9, duration := 1, stream_index := 0 }
    (by norm_num [imf_read_packet_on_track, get_resource_context_for_timestamp,
      find_covering_resource, pump_loop, c4_track, c4_res, default_handle])
    (by norm_num [imf_read_packet_on_track, get_resource_context_for_timestamp,
      find_covering_resource, pump_loop, c4_track, c4_res, default_handle])
    (by norm_num)

lemma clamp_eq_max (cdts cd lp : ℤ) :
    (if cdts < cd ∧ 0 < lp then cd else cdts) =
      (if 0 < lp then max cdts cd else cdts) := by
  by_cases hlp : 0 < lp
  · by_cases hlt : cdts < cd
    · simp [hlp, hlt, max_eq_right (le_of_lt hlt)]
    · simp [hlp, hlt, max_eq_left (not_lt.mp hlt)]
  · simp [hlp]

/-- Claim C5: the emitted dts is `max(child dts, outer cur_dts)` minus the
current resource's entry point, except that when the track's `last_pts` is
not yet positive (the `last_pts > 0` guard, so in particular for the first
packet of a track) the clamp against `cur_dts` is skipped and the emitted
dts is the child dts minus the entry point. -/
theorem c5_dts_rewriting (t t1 : IMFVirtualTrackPlaybackCtx) (i : ℕ)
    (cd : ℤ) (ints : List Bool) (cpts cdts cdur : ℤ) (rest : List ChildRead)
    (hne : ¬ t.current_timestamp = t.duration)
    (hres : get_resource_context_for_timestamp t = some (i, t1))
    (hint : ints.headD false = false) :
    (imf_read_packet_on_track t cd ints
        (ChildRead.pkt cpts cdts cdur :: rest)).1 =
      ReadResult.packet
        { pts := t.last_pts,
          dts := (if 0 < t.last_pts then max cdts cd else cdts)
            - ((t.resources.getD i
              default_handle).resource.base.entry_point : ℤ),
          duration := cdur,
          stream_index := t.index } := by
  obtain ⟨hlp, _hct, _hd, hidx, _hcri, _hlen, hfres⟩ :=
    get_resource_context_fields t i t1 hres
  unfold imf_read_packet_on_track
  rw [if_neg hne]
  simp only [hres, pump_loop_success t1 i cd cpts cdts cdur rest ints hint]
  rw [hlp, hidx, (hfres i).1, clamp_eq_max]

/-- Claim C5 witness: on the concrete `c5_track` (entry point 7, first
packet, `last_pts = 0`) the emitted dts is the child dts 3 minus 7, with the
clamp against `cur_dts = 9` skipped. -/
theorem c5_dts_rewriting_witness :
    (imf_read_packet_on_track c5_track 9 []
        (ChildRead.pkt 0 3 1 :: [])).1 =
      ReadResult.packet
        { pts := c5_track.last_pts,
          dts := (if 0 < c5_track.last_pts then max 3 9 else 3)
            - ((c5_track.resources.getD 0
              default_handle).resource.base.entry_point : ℤ),
          duration := 1,
          stream_index := c5_track.index } :=
  c5_dts_rewriting c5_track c5_track 0 9 [] 0 3 1 []
    (by norm_num [c5_track])
    (by norm_num [get_resource_context_for_timestamp, find_covering_resource,
      c5_track, c5_res])
    rfl

lemma open_track_file_resource_loop_spec (r : FFIMFTrackFileResource) (tb : ℚ) :
    ∀ (n : ℕ) (track : IMFVirtualTrackPlaybackCtx),
      open_track_file_resource_loop r tb n track =
        { track with
            resources := track.resources ++
              List.replicate n (open_track_resource_handle r tb),
            duration := track.duration +
              (n : ℚ) * ((r.base.duration : ℚ) / r.base.edit_rate) } := by
  intro n
  induction n with
  | zero =>
    intro track
    simp [open_track_file_resource_loop]
  | succ n ih =>
    intro track
    rw [open_track_file_resource_loop, ih]
    simp only [IMFVirtualTrackPlaybackCtx.mk.injEq, true_and, and_true]
    refine ⟨?_, ?_⟩
    · push_cast
      ring
    · rw [List.append_assoc, List.replicate_succ, List.singleton_append]

lemma open_virtual_track_fold (rs : List (FFIMFTrackFileResource × ℚ)) :
    ∀ (t : IMFVirtualTrackPlaybackCtx),
      (rs.foldl (fun track p => open_track_file_resource p.1 p.2 track) t).resources
          = t.resources ++ rs.flatMap (fun p =>
            List.replicate p.1.base.repeat_count
              (open_track_resource_handle p.1 p.2)) ∧
      (rs.foldl (fun track p => open_track_file_resource p.1 p.2 track) t).duration
          = t.duration + (rs.map (fun p =>
            ((p.1.base.duration : ℚ) * (p.1.base.repeat_count : ℚ)) /
              p.1.base.edit_rate)).sum ∧
      (rs.foldl (fun track p => open_track_file_resource p.1 p.2 track) t).index
          = t.index ∧
      (rs.foldl (fun track p =>
          open_track_file_resource p.1 p.2 track) t).current_timestamp
        = t.current_timestamp ∧
      (rs.foldl (fun track p =>
          open_track_file_resource p.1 p.2 track) t).current_resource_index
        = t.current_resource_index ∧
      (rs.foldl (fun track p => open_track_file_resource p.1 p.2 track) t).last_pts
          = t.last_pts := by
  induction rs with
  | nil =>
    intro t
    refine ⟨by simp, by simp, rfl, rfl, rfl, rfl⟩
  | cons p rest ih =>
    intro t
    have hopen : open_track_file_resource p.1 p.2 t =
        { t with
            resources := t.resources ++
              List.replicate p.1.base.repeat_count
                (open_track_resource_handle p.1 p.2),
            duration := t.duration + (p.1.base.repeat_count : ℚ) *
              ((p.1.base.duration : ℚ) / p.1.base.edit_rate) } :=
      open_track_file_resource_loop_spec p.1 p.2 p.1.base.repeat_count t
    obtain ⟨h1, h2, h3, h4, h5, h6⟩ :=
      ih (open_track_file_resource p.1 p.2 t)
    rw [List.foldl_cons]
    refine ⟨?_, ?_, ?_, ?_, ?_, ?_⟩
    · rw [h1, hopen]
      simp only [List.flatMap_cons, List.append_assoc]
    · rw [h2, hopen]
      simp only [List.map_cons, List.sum_cons]
      ring
    · rw [h3, hopen]
    · rw [h4, hopen]
    · rw [h5, hopen]
    · rw [h6, hopen]

/-- Claim C7: opening a virtual track expands each CPL resource with
`repeat_count = k` into exactly `k` playback handles that all reference the
same underlying `FFIMFTrackFileResource`, and the resulting track duration
is the exact Rational sum of
`resource.duration × resource.repeat_count / resource.edit_rate` over the
CPL resources. -/
theorem c7_repeat_expansion (rs : List (FFIMFTrackFileResource × ℚ)) (idx : ℤ) :
    (open_virtual_track rs idx).resources =
      rs.flatMap (fun p => List.replicate p.1.base.repeat_count
        (open_track_resource_handle p.1 p.2)) ∧
    (open_virtual_track rs idx).duration =
      (rs.map (fun p =>
        ((p.1.base.duration : ℚ) * (p.1.base.repeat_count : ℚ)) /
          p.1.base.edit_rate)).sum := by
  obtain ⟨h1, h2, _, _, _, _⟩ := open_virtual_track_fold rs
    { index := idx, current_timestamp := 0, duration := 0, resources := [],
      current_resource_index := 0, last_pts := 0 }
  exact ⟨by simpa using h1, by simpa using h2⟩

lemma set_open_flag_getD_ne :
    ∀ (l : List IMFVirtualTrackResourcePlaybackCtx) (j k : ℕ) (b : Bool),
      k ≠ j →
      (set_open_flag l j b).getD k default_handle = l.getD k default_handle := by
  intro l
  induction l with
  | nil =>
    intro j k b _
    rfl
  | cons h rest ih =>
    intro j k b hne
    cases j with
    | zero =>
      cases k with
      | zero => exact absurd rfl hne
      | succ k => rfl
    | succ j =>
      cases k with
      | zero => rfl
      | succ k =>
        simpa [set_open_flag] using ih j k b (fun hh => hne (by rw [hh]))

lemma set_open_flag_getD_isOpen :
    ∀ (l : List IMFVirtualTrackResourcePlaybackCtx) (j : ℕ) (b : Bool),
      j < l.length →
      ((set_open_flag l j b).getD j default_handle).isOpen = b := by
  intro l
  induction l with
  | nil =>
    intro j b h
    simp at h
  | cons hd rest ih =>
    intro j b hj
    cases j with
    | zero => rfl
    | succ j => simpa [set_open_flag] using ih j b (by simpa using hj)

lemma cumulated_durations_set_open_flag (eu : ℚ) :
    ∀ (l : List IMFVirtualTrackResourcePlaybackCtx) (j : ℕ) (b : Bool) (n : ℕ),
      cumulated_durations eu (set_open_flag l j b) n =
        cumulated_durations eu l n := by
  intro l
  induction l with
  | nil =>
    intro j b n
    cases j <;> rfl
  | cons h rest ih =>
    intro j b n
    cases j with
    | zero =>
      cases n with
      | zero => rfl
      | succ n => simp [set_open_flag, cumulated_durations_cons]
    | succ j =>
      cases n with
      | zero => rfl
      | succ n =>
        simp only [set_open_flag, cumulated_durations_cons]
        rw [ih j b n]

lemma pump_loop_state (track : IMFVirtualTrackPlaybackCtx) (i : ℕ)
    (cur_dts : ℤ)
    (htb : 0 ≤ (track.resources.getD i default_handle).time_base) :
    ∀ (reads : List ChildRead) (ints : List Bool) (ret : ℤ)
      (res : ReadResult) (t' : IMFVirtualTrackPlaybackCtx),
      (∀ r ∈ reads, child_read_nonneg r) →
      pump_loop track i cur_dts reads ints ret = (res, t') →
      t'.resources = track.resources ∧
      t'.current_resource_index = track.current_resource_index ∧
      t'.duration = track.duration ∧
      t'.index = track.index ∧
      track.current_timestamp ≤ t'.current_timestamp := by
  intro reads
  induction reads with
  | nil =>
    intro ints ret res t' _ h
    obtain rfl : track = t' := congrArg Prod.snd h
    exact ⟨rfl, rfl, rfl, rfl, le_refl _⟩
  | cons r rest ih =>
    intro ints ret res t' hnn h
    rw [pump_loop_cons] at h
    by_cases hc : ints.headD false = false ∧ ret = 0
    · rw [if_pos hc] at h
      cases r with
      | pkt cpts cdts cdur =>
        obtain rfl :
            ({ track with
                current_timestamp := track.current_timestamp + (cdur : ℚ) *
                  (track.resources.getD i default_handle).time_base,
                last_pts := track.last_pts + cdur }
              : IMFVirtualTrackPlaybackCtx) = t' := congrArg Prod.snd h
        refine ⟨rfl, rfl, rfl, rfl, ?_⟩
        have hd : (0 : ℤ) ≤ cdur := hnn _ (List.mem_cons_self _ _)
        have hprod : 0 ≤ (cdur : ℚ) *
            (track.resources.getD i default_handle).time_base :=
          mul_nonneg (by exact_mod_cast hd) htb
        show track.current_timestamp ≤ track.current_timestamp + (cdur : ℚ) *
          (track.resources.getD i default_handle).time_base
        linarith
      | eof =>
        exact ih ints.tail AVERROR_EOF res t'
          (fun r hr => hnn r (List.mem_cons_of_mem _ hr)) h
      | err c =>
        obtain rfl : track = t' := congrArg Prod.snd h
        exact ⟨rfl, rfl, rfl, rfl, le_refl _⟩
    · rw [if_neg hc] at h
      obtain rfl : track = t' := congrArg Prod.snd h
      exact ⟨rfl, rfl, rfl, rfl, le_refl _⟩

lemma get_resource_invariant (t : IMFVirtualTrackPlaybackCtx) (i : ℕ)
    (t1 : IMFVirtualTrackPlaybackCtx)
    (h : get_resource_context_for_timestamp t = some (i, t1))
    (hinv : track_open_invariant t) :
    track_open_invariant t1 ∧ t1.current_resource_index = i ∧
      t.current_resource_index ≤ i := by
  obtain ⟨hcri, hopen, hpassed, htb⟩ := hinv
  have hlen0 : 0 < t.resources.length := Nat.lt_of_le_of_lt (Nat.zero_le _) hcri
  have h0 : t.resources.head? = some (t.resources.getD 0 default_handle) := by
    cases hl : t.resources with
    | nil =>
      rw [hl] at hlen0
      simp at hlen0
    | cons x xs => simp [hl]
  have hfind := get_resource_context_find t
    (t.resources.getD 0 default_handle) i t1 h0 h
  obtain ⟨j, hij, hjlen, hcov, hfirst⟩ :=
    find_covering_resource_some t.current_timestamp
      ((t.resources.getD 0 default_handle).resource.base.edit_rate)⁻¹
      t.resources 0 0 i hfind
  obtain rfl : i = j := by omega
  have hge : t.current_resource_index ≤ i := by
    by_contra hlt
    push_neg at hlt
    exact hpassed i hlt (by simpa using hcov)
  rcases get_resource_context_shape t i t1 h with ⟨hceq, rfl⟩ | ⟨hcne, rfl⟩
  · exact ⟨⟨hcri, hopen, hpassed, htb⟩, hceq, hge⟩
  · have hgt : t.current_resource_index < i :=
      lt_of_le_of_ne hge (fun hh => hcne hh)
    refine ⟨⟨?_, ?_, ?_, ?_⟩, rfl, hge⟩
    · show i < (set_open_flag
        (set_open_flag t.resources t.current_resource_index false) i
          true).length
      rw [set_open_flag_length, set_open_flag_length]
      exact hjlen
    · intro j' hj'ge hj'lt
      have hge' : i ≤ j' := hj'ge
      rw [set_open_flag_length, set_open_flag_length] at hj'lt
      by_cases hj'i : j' = i
      · subst hj'i
        exact set_open_flag_getD_isOpen _ j' true
          (by rw [set_open_flag_length]; exact hjlen)
      · rw [set_open_flag_getD_ne _ _ _ _ hj'i,
          set_open_flag_getD_ne _ _ _ _ (by omega)]
        exact hopen j' (by omega) hj'lt
    · intro j' hj'
      have hj'i : j' < i := hj'
      rw [show ({ t with
          resources := set_open_flag
            (set_open_flag t.resources t.current_resource_index false) i true,
          current_resource_index := i }
          : IMFVirtualTrackPlaybackCtx).current_timestamp =
          t.current_timestamp from rfl,
        set_open_flag_getD_resource, set_open_flag_getD_resource,
        cumulated_durations_set_open_flag, cumulated_durations_set_open_flag]
      exact fun hcontra => hfirst j' hj'i (by simpa using hcontra)
    · intro j'
      rw [set_open_flag_getD_time_base, set_open_flag_getD_time_base]
      exact htb j'

lemma getD_mem {α : Type} (d : α) :
    ∀ (l : List α) (j : ℕ), j < l.length → l.getD j d ∈ l := by
  intro l
  induction l with
  | nil =>
    intro j h
    simp at h
  | cons x xs ih =>
    intro j h
    cases j with
    | zero => exact List.mem_cons_self _ _
    | succ j => exact List.mem_cons_of_mem _ (ih j (by simpa using h))

lemma getD_oob {α : Type} (d : α) :
    ∀ (l : List α) (j : ℕ), l.length ≤ j → l.getD j d = d := by
  intro l
  induction l with
  | nil =>
    intro j _
    rfl
  | cons x xs ih =>
    intro j h
    cases j with
    | zero => simp at h
    | succ j => simpa using ih j (by simpa using h)

lemma open_virtual_track_invariant (rs : List (FFIMFTrackFileResource × ℚ))
    (idx : ℤ) (hne : rs ≠ [])
    (hrep : ∀ p ∈ rs, 1 ≤ p.1.base.repeat_count)
    (htb : ∀ p ∈ rs, 0 ≤ p.2) :
    track_open_invariant (open_virtual_track rs idx) := by
  unfold track_open_invariant open_virtual_track
  obtain ⟨hres, _, _, _, hcri, _⟩ := open_virtual_track_fold rs
    { index := idx, current_timestamp := 0, duration := 0, resources := [],
      current_resource_index := 0, last_pts := 0 }
  rw [List.nil_append] at hres
  simp only [hres, hcri]
  have hmem : ∀ x ∈ rs.flatMap (fun p =>
      List.replicate p.1.base.repeat_count
        (open_track_resource_handle p.1 p.2)),
      x.isOpen = true ∧ 0 ≤ x.time_base := by
    intro x hx
    rw [List.mem_flatMap] at hx
    obtain ⟨p, hp, hx⟩ := hx
    rw [List.eq_of_mem_replicate hx]
    exact ⟨rfl, htb p hp⟩
  refine ⟨?_, ?_, ?_, ?_⟩
  · cases rs with
    | nil => exact absurd rfl hne
    | cons p rest =>
      rw [List.flatMap_cons, List.length_append, List.length_replicate]
      have := hrep p (List.mem_cons_self _ _)
      omega
  · intro j _ hj
    exact (hmem _ (getD_mem default_handle _ j hj)).1
  · intro j hj
    omega
  · intro j
    by_cases hj : j < (rs.flatMap (fun p =>
        List.replicate p.1.base.repeat_count
          (open_track_resource_handle p.1 p.2))).length
    · exact (hmem _ (getD_mem default_handle _ j hj)).2
    · rw [getD_oob default_handle _ j (by omega)]
      exact le_refl _

lemma read_packet_preserves_invariant (t t' : IMFVirtualTrackPlaybackCtx)
    (cd : ℤ) (ints : List Bool) (reads : List ChildRead) (res : ReadResult)
    (hreads : ∀ r ∈ reads, child_read_nonneg r)
    (hstep : imf_read_packet_on_track t cd ints reads = (res, t'))
    (hinv : track_open_invariant t) :
    track_open_invariant t' := by
  unfold imf_read_packet_on_track at hstep
  split at hstep
  · obtain rfl : t = t' := congrArg Prod.snd hstep
    exact hinv
  · cases hres : get_resource_context_for_timestamp t with
    | none =>
      simp only [hres] at hstep
      split at hstep
      · obtain rfl : t = t' := congrArg Prod.snd hstep
        exact hinv
      · obtain rfl : t = t' := congrArg Prod.snd hstep
        exact hinv
    | some it =>
      obtain ⟨i, t1⟩ := it
      simp only [hres] at hstep
      obtain ⟨hinv1, hcri1, _⟩ := get_resource_invariant t i t1 hres hinv
      obtain ⟨hcri1', hopen1, hpassed1, htb1⟩ := hinv1
      obtain ⟨hrs, hcri, hdur, hidx, hct⟩ :=
        pump_loop_state t1 i cd (htb1 i) reads ints 0 res t' hreads hstep
      refine ⟨?_, ?_, ?_, ?_⟩
      · rw [hrs, hcri]
        exact hcri1'
      · intro j hj1 hj2
        rw [hrs]
        rw [hcri] at hj1
        rw [hrs] at hj2
        exact hopen1 j hj1 hj2
      · intro j hj
        rw [hcri] at hj
        rw [hrs]
        intro hcontra
        exact hpassed1 j hj (by linarith)
      · intro j
        rw [hrs]
        exact htb1 j

lemma reachable_track_invariant (t : IMFVirtualTrackPlaybackCtx)
    (h : reachable_track t) : track_open_invariant t := by
  induction h with
  | base rs idx hne hrep htb =>
    exact open_virtual_track_invariant rs idx hne hrep htb
  | step t t' cd ints reads res _hre hreads hstep ih =>
    exact read_packet_preserves_invariant t t' cd ints reads res hreads hstep ih

/-- Claim C6, amended: the code opens the child demuxer of every playback
handle (one per expanded repeat) eagerly during `open`, so "at most one open
child per track" does not hold (see the counterexample theorem).  What holds
instead: in every reachable state the current resource and every resource
after it have open children, and when the cursor switches from resource
`current_resource_index` to a different covering resource `i`, the old
current resource's child is closed and resource `i`'s child is open in the
resulting state, with the cursor index updated to `i`. -/
theorem c6_children_open_amended :
    (∀ t, reachable_track t →
      t.current_resource_index < t.resources.length ∧
      ∀ j, t.current_resource_index ≤ j → j < t.resources.length →
        (t.resources.getD j default_handle).isOpen = true) ∧
    (∀ (t : IMFVirtualTrackPlaybackCtx) (i : ℕ)
       (t1 : IMFVirtualTrackPlaybackCtx),
      get_resource_context_for_timestamp t = some (i, t1) →
      i ≠ t.current_resource_index →
      t.current_resource_index < t.resources.length →
      i < t.resources.length →
      (t1.resources.getD t.current_resource_index default_handle).isOpen
          = false ∧
      (t1.resources.getD i default_handle).isOpen = true ∧
      t1.current_resource_index = i) := by
  constructor
  · intro t hreach
    obtain ⟨h1, h2, _, _⟩ := reachable_track_invariant t hreach
    exact ⟨h1, h2⟩
  · intro t i t1 h hne hcrilen hilen
    rcases get_resource_context_shape t i t1 h with ⟨hceq, rfl⟩ | ⟨_, rfl⟩
    · exact absurd hceq.symm hne
    · refine ⟨?_, ?_, rfl⟩
      · rw [set_open_flag_getD_ne _ _ _ _ (fun hh => hne hh.symm)]
        exact set_open_flag_getD_isOpen _ _ false hcrilen
      · exact set_open_flag_getD_isOpen _ _ true
          (by rw [set_open_flag_length]; exact hilen)

/-- Claim C6 witness: the invariant instantiated at the state produced by
opening a track with one CPL resource of `repeat_count = 2`. -/
theorem c6_children_open_witness :
    (open_virtual_track [(c6_res, 1/24)] 0).current_resource_index <
      (open_virtual_track [(c6_res, 1/24)] 0).resources.length ∧
    ∀ j, (open_virtual_track [(c6_res, 1/24)] 0).current_resource_index ≤ j →
      j < (open_virtual_track [(c6_res, 1/24)] 0).resources.length →
      ((open_virtual_track [(c6_res, 1/24)] 0).resources.getD j
        default_handle).isOpen = true :=
  c6_children_open_amended.1 _
    (reachable_track.base [(c6_res, 1/24)] 0 (by simp)
      (by
        intro p hp
        rw [List.mem_singleton] at hp
        subst hp
        norm_num [c6_res])
      (by
        intro p hp
        rw [List.mem_singleton] at hp
        subst hp
        norm_num))

/-- Claim C6 counterexample: immediately after `open`, a track built from
one CPL resource with `repeat_count = 2` has two open child demuxers — the
claim's "at most one child demuxer of that track is open at any time" is
false, because `open_track_file_resource` opens a child per expanded repeat
during `open` rather than lazily on first use. -/
theorem c6_children_open_counterexample :
    2 ≤ List.countP (fun h => h.isOpen)
      (open_virtual_track [(c6_res, 1/24)] 0).resources := by
  norm_num [open_virtual_track, open_track_file_resource,
    open_track_file_resource_loop, open_track_resource_handle, c6_res,
    List.countP, List.countP.go]

lemma pump_loop_ret_nonzero (track : IMFVirtualTrackPlaybackCtx) (i : ℕ)
    (cd : ℤ) (reads : List ChildRead) (ints : List Bool) (ret : ℤ)
    (hret : ret ≠ 0) :
    pump_loop track i cd reads ints ret = (ReadResult.eof, track) := by
  cases reads with
  | nil => rfl
  | cons r rest =>
    rw [pump_loop_cons, if_neg (fun hh => hret hh.2)]

/-- Claim C8, amended: when the child demuxer reports EndOfStream, the
`while (!interrupt && !ret)` loop exits — the EndOfStream case does not
return from inside the loop body, but the loop condition fails on the now
nonzero `ret` — so the call returns EndOfStream to the caller without any
further child read in that same call, leaving the track cursors
(`current_timestamp`, `last_pts`) unchanged; relocation to the next
resource can only happen on a subsequent call.  Every other child error is
propagated to the caller as-is. -/
theorem c8_child_eof_amended :
    (∀ (t t1 : IMFVirtualTrackPlaybackCtx) (i : ℕ) (cd : ℤ)
       (ints : List Bool) (rest : List ChildRead),
      ¬ t.current_timestamp = t.duration →
      get_resource_context_for_timestamp t = some (i, t1) →
      imf_read_packet_on_track t cd ints (ChildRead.eof :: rest) =
        (ReadResult.eof, t1) ∧
      t1.current_timestamp = t.current_timestamp ∧
      t1.last_pts = t.last_pts) ∧
    (∀ (t t1 : IMFVirtualTrackPlaybackCtx) (i : ℕ) (cd c : ℤ)
       (ints : List Bool) (rest : List ChildRead),
      ¬ t.current_timestamp = t.duration →
      get_resource_context_for_timestamp t = some (i, t1) →
      ints.headD false = false →
      imf_read_packet_on_track t cd ints (ChildRead.err c :: rest) =
        (ReadResult.err c, t1)) := by
  constructor
  · intro t t1 i cd ints rest hne hres
    obtain ⟨hlp, hct, _, _, _, _, _⟩ := get_resource_context_fields t i t1 hres
    refine ⟨?_, hct, hlp⟩
    unfold imf_read_packet_on_track
    rw [if_neg hne]
    simp only [hres]
    rw [pump_loop_cons]
    by_cases hcond : ints.headD false = false ∧ (0 : ℤ) = 0
    · rw [if_pos hcond]
      exact pump_loop_ret_nonzero t1 i cd rest ints.tail AVERROR_EOF
        (by norm_num [AVERROR_EOF])
    · rw [if_neg hcond]
  · intro t t1 i cd c ints rest hne hres hint
    unfold imf_read_packet_on_track
    rw [if_neg hne]
    simp only [hres]
    rw [pump_loop_cons, if_pos ⟨hint, rfl⟩]

/-- Claim C8 witness: a child EndOfStream on the concrete `c8_track` makes
the call return EndOfStream with the cursors untouched. -/
theorem c8_child_eof_witness :
    imf_read_packet_on_track c8_track 0 [] (ChildRead.eof :: []) =
      (ReadResult.eof, c8_track) ∧
    c8_track.current_timestamp = c8_track.current_timestamp ∧
    c8_track.last_pts = c8_track.last_pts :=
  c8_child_eof_amended.1 c8_track c8_track 0 0 [] []
    (by norm_num [c8_track])
    (by norm_num [get_resource_context_for_timestamp, find_covering_resource,
      c8_track, c8_res])

/-- Claim C8 counterexample: with the track in mid-playback
(`current_timestamp < duration`), a child that reports EndOfStream and then
has a packet available makes the call return EndOfStream without consuming
the follow-up packet — the pump does not continue looping within the
packet-read call; the child's EndOfStream is surfaced to the caller by this
very call. -/
theorem c8_child_eof_counterexample :
    imf_read_packet_on_track c8_track 0 []
        [ChildRead.eof, ChildRead.pkt 0 0 1] = (ReadResult.eof, c8_track) ∧
    c8_track.current_timestamp < c8_track.duration := by
  constructor
  · norm_num [imf_read_packet_on_track, get_resource_context_for_timestamp,
      find_covering_resource, pump_loop, AVERROR_EOF, c8_track, c8_res,
      default_handle]
  · norm_num [c8_track]

lemma av_append_path_component_ne (base uri : List Char) :
    av_append_path_component base uri ≠ uri := by
  intro h
  have hlen := congrArg List.length h
  simp only [av_append_path_component, List.length_append,
    List.length_cons] at hlen
  omega

/-- Claim C9: the stored absolute URI is the Path verbatim exactly when the
Path contains "://", or begins with '/', or matches a Windows absolute
pattern (second character ':' followed by a backslash or '/', or two
leading backslashes); otherwise it is the Path appended to the directory
component of the Asset Map document's own URL. -/
theorem c9_asset_path_resolution (base uri : List Char) :
    (asset_absolute_uri base uri = uri ↔
      (imf_uri_is_url uri = true ∨ imf_uri_is_unix_abs_path uri = true ∨
        imf_uri_is_dos_abs_path uri = true)) ∧
    (imf_uri_is_unix_abs_path uri = true ↔ c_str_get uri 0 = '/') ∧
    (imf_uri_is_dos_abs_path uri = true ↔
      ((c_str_get uri 1 = ':' ∧
          (c_str_get uri 2 = '\\' ∨ c_str_get uri 2 = '/')) ∨
        (c_str_get uri 0 = '\\' ∧ c_str_get uri 1 = '\\'))) ∧
    ((imf_uri_is_url uri = false ∧ imf_uri_is_unix_abs_path uri = false ∧
        imf_uri_is_dos_abs_path uri = false) →
      asset_absolute_uri base uri = av_append_path_component base uri) := by
  refine ⟨?_, ?_, ?_, ?_⟩
  · by_cases h1 : imf_uri_is_url uri = true
    · simp [asset_absolute_uri, h1]
    · by_cases h2 : imf_uri_is_unix_abs_path uri = true
      · simp [asset_absolute_uri, h1, h2]
      · by_cases h3 : imf_uri_is_dos_abs_path uri = true
        · simp [asset_absolute_uri, h1, h2, h3]
        · rw [Bool.not_eq_true] at h1 h2 h3
          simp [asset_absolute_uri, h1, h2, h3,
            av_append_path_component_ne base uri]
  · simp [imf_uri_is_unix_abs_path, beq_iff_eq]
  · constructor
    · intro h
      simp only [imf_uri_is_dos_abs_path, Bool.or_eq_true, Bool.and_eq_true,
        beq_iff_eq] at h
      tauto
    · intro h
      simp only [imf_uri_is_dos_abs_path, Bool.or_eq_true, Bool.and_eq_true,
        beq_iff_eq]
      tauto
  · intro ⟨h1, h2, h3⟩
    simp [asset_absolute_uri, h1, h2, h3]

/-- Claim C9 witness: a relative path is resolved against the Asset Map
document's directory. -/
theorem c9_asset_path_resolution_witness :
    asset_absolute_uri ("/pkg".toList) ("video.mxf".toList) =
      av_append_path_component ("/pkg".toList) ("video.mxf".toList) :=
  (c9_asset_path_resolution ("/pkg".toList) ("video.mxf".toList)).2.2.2
    (by refine ⟨?_, ?_, ?_⟩ <;> decide)

/-- Claim C10 (code bug): on an AssetMap whose AssetList contains a child
element that is not named "Asset" — here one named "Annotation" — the asset
iteration never terminates: the `continue` statement jumps back to the loop
condition without executing the `xmlNextElementSibling` advance at the
bottom of the loop body, so the same element is re-tested forever.  For
every amount of fuel the loop is still running, refuting the claim that
parsing terminates for every finite input document. -/
theorem c10_asset_map_loop_divergence (fuel : ℕ) :
    asset_map_loop_run [] [c10_bad_child] fuel 0 [] = none := by
  induction fuel with
  | zero => rfl
  | succ n ih =>
    rw [asset_map_loop_run]
    have hbody : asset_map_loop_body [] [c10_bad_child] 0 [] =
        AmLoopStep.cont 0 [] := by decide
    rw [hbody]
    exact ih

end ImfDec
